import Mathlib

/-!
Verification of the NoteGenius local NLP core against its specification.

The TypeScript sources are shallowly embedded: JS strings become `List Char`
(wrapped in `String` at API boundaries), JS numbers become `ℚ` where the code
does exact decimal arithmetic and `ℝ` where it does iterative floating-point
numerics (TextRank/PageRank), and JS regular expressions are compiled to a
small explicit backtracking matcher whose preference order (leftmost match,
ordered alternation, greedy quantifiers) mirrors the ECMAScript semantics.
-/

namespace NoteGenius

/-! ## JavaScript string primitives -/

/-- The whitespace characters recognised by the embedding of the JS `\s`
class and `String.prototype.trim` (the ASCII whitespace characters plus
no-break space; the inputs in this development only ever contain plain
spaces). -/
def isWsB (c : Char) : Bool :=
  c == ' ' || c == '\t' || c == '\n' || c == '\r' ||
  c == '\x0b' || c == '\x0c' || c.toNat == 0xa0 || c.toNat == 0xfeff

/-- JS `\w` character class: `[A-Za-z0-9_]`. -/
def isWordC (c : Char) : Bool :=
  ('a' ≤ c && c ≤ 'z') || ('A' ≤ c && c ≤ 'Z') || ('0' ≤ c && c ≤ '9') || c == '_'

/-- JS `\d` character class. -/
def isDigitC (c : Char) : Bool := '0' ≤ c && c ≤ '9'

/-- ASCII lowering, the fragment of `String.prototype.toLowerCase` exercised
by this code base (all lexicon entries and cue patterns are ASCII). -/
def jsLower (c : Char) : Char :=
  if 'A' ≤ c ∧ c ≤ 'Z' then Char.ofNat (c.toNat + 32) else c

/-- ASCII uppering, the fragment of `String.prototype.toUpperCase` used by
`charAt(0).toUpperCase()`. -/
def jsUpper (c : Char) : Char :=
  if 'a' ≤ c ∧ c ≤ 'z' then Char.ofNat (c.toNat - 32) else c

/-- Drop leading whitespace. -/
def trimL (l : List Char) : List Char := l.dropWhile isWsB

/-- JS `String.prototype.trim`: drop leading and trailing whitespace. -/
def trimJS (l : List Char) : List Char :=
  ((trimL ((trimL l).reverse)).reverse)

/-- `trimJS` lifted to `String`. -/
def strTrim (s : String) : String := String.mk (trimJS s.data)

/-- Does `t` start with `u` (exact characters)? -/
def startsWithL : List Char → List Char → Bool
  | [], _ => true
  | _ :: _, [] => false
  | a :: u, b :: t => a == b && startsWithL u t

/-- Does `t` contain `u` as a contiguous segment? -/
def containsSegB (u : List Char) : List Char → Bool
  | [] => startsWithL u []
  | c :: t => startsWithL u (c :: t) || containsSegB u t

/-- Case-insensitive substring test, the compilation of a `/literal/i`
regex `test`. -/
def containsCI (pat s : String) : Bool :=
  containsSegB (pat.data.map jsLower) (s.data.map jsLower)

/-- `u` occurs as a contiguous segment of `t`. -/
def Subseg (u t : List Char) : Prop := ∃ a b, t = a ++ u ++ b

/-! ## Splitting on whitespace runs (JS `split(/\s+/)`)

`"".split(/\s+/)` is `[""]`; leading and trailing whitespace produce empty
tokens, exactly as in ECMAScript. -/

/-- Worker for `splitWs`: `cur` holds the current token reversed and `inSep`
records whether the scanner is inside a (greedy, maximal) whitespace
separator run whose token has already been emitted. -/
def splitWsAux : List Char → List Char → Bool → List (List Char)
  | [], cur, _ => [cur.reverse]
  | c :: rest, cur, inSep =>
    if isWsB c then
      if inSep then splitWsAux rest cur true
      else cur.reverse :: splitWsAux rest [] true
    else splitWsAux rest (c :: cur) false

/-- Embedding of `str.split(/\s+/)`. -/
def splitWs (l : List Char) : List (List Char) := splitWsAux l [] false

/-- `Math.max` on two exact (rational) numbers. -/
def jsMaxQ (a b : ℚ) : ℚ := if a ≤ b then b else a

/-- `Math.min` on two exact (rational) numbers. -/
def jsMinQ (a b : ℚ) : ℚ := if a ≤ b then a else b

/-! ## Sentiment analyzer (`src/services/nlp/sentiment.ts`) -/

/-- `POSITIVE_WORDS` from sentiment.ts. -/
def POSITIVE_WORDS : List String :=
  ["good", "great", "excellent", "amazing", "wonderful", "fantastic",
   "awesome", "love", "happy", "glad", "pleased", "delighted", "perfect",
   "beautiful", "brilliant", "outstanding", "superb", "terrific", "positive",
   "success", "successful", "agree", "agreed", "approval", "approve", "best",
   "better", "celebrate", "accomplished", "achieve", "benefit", "comfortable",
   "confident", "creative", "efficient", "enjoy", "excited", "exciting",
   "favorable", "fine", "fortunate", "helpful", "impressive", "improved",
   "incredible", "inspired", "interesting", "joyful", "nice", "optimistic",
   "promising", "remarkable", "satisfied", "smooth", "strong", "valuable",
   "welcome", "win", "won", "worth", "worthy", "ready", "progress", "resolved"]

/-- `NEGATIVE_WORDS` from sentiment.ts. -/
def NEGATIVE_WORDS : List String :=
  ["bad", "terrible", "awful", "horrible", "poor", "worst", "hate", "angry",
   "sad", "disappointed", "frustrated", "annoyed", "upset", "fail", "failed",
   "failure", "wrong", "problem", "issue", "concern", "worried", "worry",
   "difficult", "hard", "painful", "unfortunately", "sadly", "regret",
   "unhappy", "disagree", "rejected", "reject", "block", "blocked", "blocker",
   "broken", "bug", "confusing", "complicated", "critical", "danger",
   "dangerous", "delay", "delayed", "deny", "deprecated", "destroy",
   "disaster", "error", "expensive", "impossible", "inadequate", "incomplete",
   "insecure", "invalid", "lacking", "lost", "missing", "negative", "never",
   "nightmare", "obsolete", "overdue", "overwhelm", "risk", "risky", "severe",
   "slow", "stuck", "threat", "trouble", "unable", "unclear", "unfair",
   "unfortunate", "unstable", "urgent", "vulnerable", "weak"]

/-- `NEGATION_WORDS` from sentiment.ts. -/
def NEGATION_WORDS : List String :=
  ["not", "n't", "no", "never", "neither", "nor", "hardly", "barely",
   "scarcely", "rarely", "don't", "doesn't", "didn't", "won't", "wouldn't",
   "couldn't", "shouldn't", "isn't", "aren't", "wasn't"]

/-- Tokenisation inside `analyzeSentiment`: lowercase, delete every character
matching `[^\w\s']`, split on `/\s+/`. -/
def sentTokens (text : String) : List String :=
  (splitWs ((text.data.map jsLower).filter
    (fun c => isWordC c || isWsB c || c == '\''))).map String.mk

/-- One iteration of the word loop of `analyzeSentiment`: state is
(score, wordCount, negated). -/
def sentStep (st : ℤ × ℕ × Bool) (w : String) : ℤ × ℕ × Bool :=
  if NEGATION_WORDS.contains w then (st.1, st.2.1, true)
  else if POSITIVE_WORDS.contains w then
    (st.1 + (if st.2.2 then -1 else 1), st.2.1 + 1, false)
  else if NEGATIVE_WORDS.contains w then
    (st.1 + (if st.2.2 then 1 else -1), st.2.1 + 1, false)
  else (st.1, st.2.1, false)

/-- The return expression of `analyzeSentiment`: `0` when `wordCount` is
zero, otherwise `Math.max(-1, Math.min(1, score / Math.max(wordCount, 1)))`. -/
def sentFinal (st : ℤ × ℕ × Bool) : ℚ :=
  if st.2.1 = 0 then 0
  else jsMaxQ (-1) (jsMinQ 1 ((st.1 : ℚ) / ((if st.2.1 ≤ 1 then 1 else st.2.1 : ℕ) : ℚ)))

/-- `analyzeSentiment` from sentiment.ts: lexicon scores with a one-word
negation flag, normalised by the sentiment-word count and clamped to
`[-1, 1]`; `0` when no sentiment word was counted. -/
def analyzeSentiment (text : String) : ℚ :=
  sentFinal ((sentTokens text).foldl sentStep (0, 0, false))

/-- `analyzeSentimentBatch` from sentiment.ts. -/
def analyzeSentimentBatch (segments : List String) : List ℚ :=
  segments.map analyzeSentiment

/-! ### Lemmas about the sentiment analyzer -/

/-- A word list in which every token is either a negation word or outside
both sentiment lexicons leaves the score and the word count at zero. -/
lemma sent_fold_zero (ws : List String) (b : Bool)
    (h : ∀ w ∈ ws, NEGATION_WORDS.contains w = true ∨
      (POSITIVE_WORDS.contains w = false ∧ NEGATIVE_WORDS.contains w = false)) :
    ∃ b', ws.foldl sentStep (0, 0, b) = (0, 0, b') := by
  induction ws generalizing b with
  | nil => exact ⟨b, rfl⟩
  | cons w ws ih =>
    have hw := h w (by simp)
    have hrest : ∀ w ∈ ws, NEGATION_WORDS.contains w = true ∨
        (POSITIVE_WORDS.contains w = false ∧ NEGATIVE_WORDS.contains w = false) :=
      fun w hmem => h w (by simp [hmem])
    rcases hw with hneg | ⟨hp, hn⟩
    · have hneg' : w ∈ NEGATION_WORDS := by simpa using hneg
      have hs : sentStep (0, 0, b) w = (0, 0, true) := by simp [sentStep, hneg']
      rw [List.foldl_cons, hs]
      exact ih true hrest
    · have hp' : w ∉ POSITIVE_WORDS := by simpa using hp
      have hn' : w ∉ NEGATIVE_WORDS := by simpa using hn
      by_cases hng : w ∈ NEGATION_WORDS
      · have hs : sentStep (0, 0, b) w = (0, 0, true) := by simp [sentStep, hng]
        rw [List.foldl_cons, hs]
        exact ih true hrest
      · have hs : sentStep (0, 0, b) w = (0, 0, false) := by
          simp [sentStep, hng, hp', hn']
        rw [List.foldl_cons, hs]
        exact ih false hrest

/-- The negated flag after processing any nonempty token sequence equals
whether the final token is a negation word. -/
lemma sent_fold_flag (st : ℤ × ℕ × Bool) (ws : List String) (w : String) :
    ((ws ++ [w]).foldl sentStep st).2.2 = NEGATION_WORDS.contains w := by
  rw [List.foldl_append]
  set st' := ws.foldl sentStep st
  by_cases hng : w ∈ NEGATION_WORDS
  · simp [sentStep, hng]
  · by_cases hp : w ∈ POSITIVE_WORDS
    · simp [sentStep, hng, hp]
    · by_cases hn : w ∈ NEGATIVE_WORDS
      · simp [sentStep, hng, hp, hn]
      · simp [sentStep, hng, hp, hn]

/-- C8: for every input string `analyzeSentiment` returns a value in
`[-1, 1]`; it returns exactly `0` when no sentiment word is counted
(negation words are never counted), in particular on the empty string; and
matching is case-insensitive: `"GREAT"` scores the same as `"great"`. -/
theorem analyzeSentiment_range_zero_ci :
    (∀ s : String, -1 ≤ analyzeSentiment s ∧ analyzeSentiment s ≤ 1) ∧
    (∀ s : String,
      (∀ w ∈ sentTokens s, NEGATION_WORDS.contains w = true ∨
        (POSITIVE_WORDS.contains w = false ∧ NEGATIVE_WORDS.contains w = false)) →
      analyzeSentiment s = 0) ∧
    analyzeSentiment "" = 0 ∧
    analyzeSentiment "GREAT" = analyzeSentiment "great" := by
  have hclamp : ∀ x : ℚ, -1 ≤ jsMaxQ (-1) (jsMinQ 1 x) ∧ jsMaxQ (-1) (jsMinQ 1 x) ≤ 1 := by
    intro x
    by_cases h1 : (1 : ℚ) ≤ x
    · simp only [jsMinQ, jsMaxQ, if_pos h1]
      norm_num
    · by_cases h2 : (-1 : ℚ) ≤ x
      · simp only [jsMinQ, jsMaxQ, if_neg h1, if_pos h2]
        constructor <;> linarith
      · simp only [jsMinQ, jsMaxQ, if_neg h1, if_neg h2]
        norm_num
  have hrange : ∀ st : ℤ × ℕ × Bool, -1 ≤ sentFinal st ∧ sentFinal st ≤ 1 := by
    intro st
    unfold sentFinal
    split
    · norm_num
    · exact hclamp _
  refine ⟨fun s => hrange _, fun s h => ?_, ?_, ?_⟩
  · obtain ⟨b', hb⟩ := sent_fold_zero (sentTokens s) false h
    unfold analyzeSentiment
    rw [hb]
    simp [sentFinal]
  · have h0 : sentTokens "" = [""] := by decide
    unfold analyzeSentiment
    rw [h0]
    simp [sentFinal, sentStep]
    decide
  · have hGg : sentTokens "GREAT" = sentTokens "great" := by decide
    unfold analyzeSentiment
    rw [hGg]

/-- C8 witness: instantiation of the hypothesis-bearing conjunct at a
concrete sentiment-free string. -/
theorem analyzeSentiment_range_zero_ci_witness :
    analyzeSentiment "the meeting is at noon" = 0 :=
  analyzeSentiment_range_zero_ci.2.1 "the meeting is at noon" (by decide)

/-- C4: a negation token contributes no score and only sets the negated
flag; any following non-sentiment non-negation token clears the flag; a
positive (resp. negative) lexicon token contributes −1 (resp. +1) instead
of +1 (resp. −1) exactly when the flag is set, i.e. exactly when the
immediately preceding token was a negation word; hence "not good" scores
negative and "not bad" scores positive. -/
theorem sentiment_negation_flip :
    (∀ (st : ℤ × ℕ × Bool) (w : String), NEGATION_WORDS.contains w = true →
      sentStep st w = (st.1, st.2.1, true)) ∧
    (∀ (st : ℤ × ℕ × Bool) (w : String), NEGATION_WORDS.contains w = false →
      POSITIVE_WORDS.contains w = false → NEGATIVE_WORDS.contains w = false →
      sentStep st w = (st.1, st.2.1, false)) ∧
    (∀ (st : ℤ × ℕ × Bool) (w : String), NEGATION_WORDS.contains w = false →
      POSITIVE_WORDS.contains w = true →
      sentStep st w = (st.1 + (if st.2.2 then -1 else 1), st.2.1 + 1, false)) ∧
    (∀ (st : ℤ × ℕ × Bool) (w : String), NEGATION_WORDS.contains w = false →
      POSITIVE_WORDS.contains w = false → NEGATIVE_WORDS.contains w = true →
      sentStep st w = (st.1 + (if st.2.2 then 1 else -1), st.2.1 + 1, false)) ∧
    (∀ (st : ℤ × ℕ × Bool) (ws : List String) (w : String),
      ((ws ++ [w]).foldl sentStep st).2.2 = NEGATION_WORDS.contains w) ∧
    analyzeSentiment "not good" < 0 ∧ 0 < analyzeSentiment "not bad" := by
  refine ⟨fun st w hng => by
      have hng' : w ∈ NEGATION_WORDS := by simpa using hng
      simp [sentStep, hng'],
    fun st w hng hp hn => by
      have hng' : w ∉ NEGATION_WORDS := by simpa using hng
      have hp' : w ∉ POSITIVE_WORDS := by simpa using hp
      have hn' : w ∉ NEGATIVE_WORDS := by simpa using hn
      simp [sentStep, hng', hp', hn'],
    fun st w hng hp => by
      have hng' : w ∉ NEGATION_WORDS := by simpa using hng
      have hp' : w ∈ POSITIVE_WORDS := by simpa using hp
      simp [sentStep, hng', hp'],
    fun st w hng hp hn => by
      have hng' : w ∉ NEGATION_WORDS := by simpa using hng
      have hp' : w ∉ POSITIVE_WORDS := by simpa using hp
      have hn' : w ∈ NEGATIVE_WORDS := by simpa using hn
      simp [sentStep, hng', hp', hn'],
    sent_fold_flag, ?_, ?_⟩
  · have h1 : sentTokens "not good" = ["not", "good"] := by decide
    have h2 : (["not", "good"].foldl sentStep (0, 0, false)) = (-1, 1, false) := by
      decide
    unfold analyzeSentiment
    rw [h1, h2]
    norm_num [sentFinal, jsMaxQ, jsMinQ]
  · have h1 : sentTokens "not bad" = ["not", "bad"] := by decide
    have h2 : (["not", "bad"].foldl sentStep (0, 0, false)) = (1, 1, false) := by
      decide
    unfold analyzeSentiment
    rw [h1, h2]
    norm_num [sentFinal, jsMaxQ, jsMinQ]

/-- C4 witness: the step function evaluated through the theorem at concrete
states and tokens. -/
theorem sentiment_negation_flip_witness :
    sentStep (0, 0, false) "not" = (0, 0, true) ∧
    sentStep (0, 0, true) "good" = (0 + -1, 0 + 1, false) ∧
    sentStep (0, 0, true) "bad" = (0 + 1, 0 + 1, false) ∧
    sentStep (0, 0, true) "meeting" = (0, 0, false) :=
  ⟨sentiment_negation_flip.1 (0, 0, false) "not" (by decide),
   sentiment_negation_flip.2.2.1 (0, 0, true) "good" (by decide) (by decide),
   sentiment_negation_flip.2.2.2.1 (0, 0, true) "bad" (by decide) (by decide)
     (by decide),
   sentiment_negation_flip.2.1 (0, 0, true) "meeting" (by decide) (by decide)
     (by decide)⟩

/-- C10: "never" is in both the negative lexicon and the negation set, but
the negation test runs first, so "never" never contributes a score of its
own: it only sets the flag; `analyzeSentiment "never" = 0` and in
"never bad" the word "bad" contributes +1, giving score 1. -/
theorem sentiment_never_is_negation :
    NEGATIVE_WORDS.contains "never" = true ∧
    NEGATION_WORDS.contains "never" = true ∧
    (∀ st : ℤ × ℕ × Bool, sentStep st "never" = (st.1, st.2.1, true)) ∧
    analyzeSentiment "never" = 0 ∧
    analyzeSentiment "never bad" = 1 := by
  have hnvr : "never" ∈ NEGATION_WORDS := by decide
  refine ⟨by decide, by decide, fun st => by simp [sentStep, hnvr], ?_, ?_⟩
  · have h1 : sentTokens "never" = ["never"] := by decide
    have h2 : (["never"].foldl sentStep (0, 0, false)) = (0, 0, true) := by decide
    unfold analyzeSentiment
    rw [h1, h2]
    simp [sentFinal]
  · have h1 : sentTokens "never bad" = ["never", "bad"] := by decide
    have h2 : (["never", "bad"].foldl sentStep (0, 0, false)) = (1, 1, false) := by
      decide
    unfold analyzeSentiment
    rw [h1, h2]
    norm_num [sentFinal, jsMaxQ, jsMinQ]

/-! ## SM-2 spaced repetition (`src/services/nlp/srs.ts`)

JS numbers are embedded as exact rationals: the SM-2 arithmetic in `srs.ts`
consists of decimal literals, comparisons, `Math.round` and `Math.max/min`,
all of which this embedding mirrors exactly. -/

/-- The SRS state of a flashcard read by `computeSRS`. -/
structure FlashcardSRS where
  id : String
  easiness : ℚ
  interval : ℚ
  repetitions : ℚ

/-- `SRSUpdate` as returned by `computeSRS`. -/
structure SRSUpdate where
  id : String
  difficulty : ℚ
  interval : ℚ
  repetitions : ℚ
  easiness : ℚ
  nextReviewAt : ℚ
  updatedAt : ℚ

/-- `Math.round`: round half toward positive infinity. -/
def jsRound (x : ℚ) : ℚ := (⌊x + 1/2⌋ : ℤ)

/-- `MS_PER_DAY` from srs.ts. -/
def MS_PER_DAY : ℚ := 86400000

/-- `MIN_EASINESS` from srs.ts. -/
def MIN_EASINESS : ℚ := 1.3

/-- `computeSRS` from srs.ts, with `Date.now()` passed in as `now`. -/
def computeSRS (card : FlashcardSRS) (rating : ℚ) (now : ℚ) : SRSUpdate :=
  let easiness0 :=
    card.easiness + (0.1 - (5 - rating) * (0.08 + (5 - rating) * 0.02))
  let easiness := if easiness0 < MIN_EASINESS then MIN_EASINESS else easiness0
  let repetitions := if rating < 3 then 0 else card.repetitions + 1
  let interval :=
    if rating < 3 then 0
    else if repetitions = 1 then 1
    else if repetitions = 2 then 6
    else jsRound (card.interval * easiness)
  let difficulty := jsMaxQ 1 (jsMinQ 5 (5 - rating + 1))
  ⟨card.id, difficulty, interval, repetitions, jsRound (easiness * 100) / 100,
    now + interval * MS_PER_DAY, now⟩

/-- The clamped (not yet 2-dp-rounded) easiness value of the SM-2 update:
the spec formula, floored at 1.3. -/
def srsEasinessSpec (easiness rating : ℚ) : ℚ :=
  jsMaxQ 1.3 (easiness + (0.1 - (5 - rating) * (0.08 + (5 - rating) * 0.02)))

/-- `jsRound` is monotone. -/
lemma jsRound_mono {a b : ℚ} (h : a ≤ b) : jsRound a ≤ jsRound b := by
  unfold jsRound
  exact_mod_cast Int.floor_le_floor (by linarith)

/-- C2: `computeSRS` resets repetitions and interval on rating < 3; on
rating ≥ 3 it increments repetitions and sets the interval to 1, 6, or
`round(interval * easiness')` according to the new repetition count; the
output easiness is the spec formula floored at 1.3 and rounded to two
decimal places, hence always at least 1.3; and the difficulty is
`clamp(5 - rating + 1, 1, 5)`, giving 1 at rating 5 and 5 at rating 0. -/
theorem computeSRS_spec (card : FlashcardSRS) (rating now : ℚ)
    (hr : rating ∈ ([0, 1, 2, 3, 4, 5] : List ℚ)) :
    (rating < 3 → (computeSRS card rating now).repetitions = 0 ∧
      (computeSRS card rating now).interval = 0) ∧
    (3 ≤ rating →
      (computeSRS card rating now).repetitions = card.repetitions + 1 ∧
      ((computeSRS card rating now).repetitions = 1 →
        (computeSRS card rating now).interval = 1) ∧
      ((computeSRS card rating now).repetitions = 2 →
        (computeSRS card rating now).interval = 6) ∧
      (3 ≤ (computeSRS card rating now).repetitions →
        (computeSRS card rating now).interval =
          jsRound (card.interval * srsEasinessSpec card.easiness rating))) ∧
    (computeSRS card rating now).easiness =
      jsRound (srsEasinessSpec card.easiness rating * 100) / 100 ∧
    1.3 ≤ (computeSRS card rating now).easiness ∧
    (computeSRS card rating now).difficulty = jsMaxQ 1 (jsMinQ 5 (5 - rating + 1)) ∧
    (rating = 5 → (computeSRS card rating now).difficulty = 1) ∧
    (rating = 0 → (computeSRS card rating now).difficulty = 5) := by
  have hspec :
      (if card.easiness + (0.1 - (5 - rating) * (0.08 + (5 - rating) * 0.02)) <
          MIN_EASINESS then MIN_EASINESS
        else card.easiness + (0.1 - (5 - rating) * (0.08 + (5 - rating) * 0.02))) =
      srsEasinessSpec card.easiness rating := by
    unfold srsEasinessSpec jsMaxQ MIN_EASINESS
    split <;> split <;> first | rfl | linarith
  have hmin : MIN_EASINESS ≤ srsEasinessSpec card.easiness rating := by
    rw [← hspec]
    by_cases hc : card.easiness +
        (0.1 - (5 - rating) * (0.08 + (5 - rating) * 0.02)) < MIN_EASINESS
    · rw [if_pos hc]
    · rw [if_neg hc]
      linarith [not_lt.mp hc]
  simp only [computeSRS, hspec]
  refine ⟨fun h => ?_, fun h => ?_, ?_, ?_, ?_, fun h => ?_, fun h => ?_⟩
  · exact ⟨if_pos h, if_pos h⟩
  · have h' : ¬ rating < 3 := not_lt.mpr h
    refine ⟨if_neg h', fun h1 => ?_, fun h2 => ?_, fun h3 => ?_⟩
    · simp only [if_neg h'] at h1 ⊢
      rw [if_pos h1]
    · simp only [if_neg h'] at h2 ⊢
      have hne1 : ¬ card.repetitions + 1 = 1 := by rw [h2]; norm_num
      rw [if_neg hne1, if_pos h2]
    · simp only [if_neg h'] at h3 ⊢
      have hne1 : ¬ card.repetitions + 1 = 1 := by
        intro he
        rw [he] at h3
        norm_num at h3
      have hne2 : ¬ card.repetitions + 1 = 2 := by
        intro he
        rw [he] at h3
        norm_num at h3
      rw [if_neg hne1, if_neg hne2]
  · trivial
  · have h130 : jsRound ((13 : ℚ) / 10 * 100) = 130 := by
      norm_num [jsRound]
    have hle : jsRound ((13 : ℚ) / 10 * 100) ≤
        jsRound (srsEasinessSpec card.easiness rating * 100) := by
      apply jsRound_mono
      have hm : (13 : ℚ) / 10 ≤ srsEasinessSpec card.easiness rating := by
        have he : MIN_EASINESS = (13 : ℚ) / 10 := by norm_num [MIN_EASINESS]
        linarith [hmin, he.ge, he.le]
      nlinarith [hm]
    rw [h130] at hle
    linarith [hle]
  · trivial
  · subst h
    norm_num [jsMaxQ, jsMinQ]
  · subst h
    norm_num [jsMaxQ, jsMinQ]

/-- C2 witness: the theorem applied to a concrete card and rating 4. -/
theorem computeSRS_spec_witness :
    (4 : ℚ) ∈ ([0, 1, 2, 3, 4, 5] : List ℚ) ∧
    (computeSRS ⟨"card-1", 2.5, 6, 2⟩ 4 0).repetitions = 2 + 1 ∧
    (computeSRS ⟨"card-1", 2.5, 6, 2⟩ 4 0).easiness =
      jsRound (srsEasinessSpec 2.5 4 * 100) / 100 ∧
    1.3 ≤ (computeSRS ⟨"card-1", 2.5, 6, 2⟩ 4 0).easiness :=
  ⟨by decide,
   ((computeSRS_spec ⟨"card-1", 2.5, 6, 2⟩ 4 0 (by decide)).2.1 (by norm_num)).1,
   (computeSRS_spec ⟨"card-1", 2.5, 6, 2⟩ 4 0 (by decide)).2.2.1,
   (computeSRS_spec ⟨"card-1", 2.5, 6, 2⟩ 4 0 (by decide)).2.2.2.1⟩

/-! ## TextRank (`src/services/nlp/textrank.ts`)

The similarity graph and PageRank iteration operate on IEEE doubles in the
source; they are embedded over `ℝ` (exact real arithmetic), which keeps the
data flow of the algorithm intact.  The structural claims proved below do
not depend on the numeric values. -/

/-- `STOP_WORDS` from textrank.ts. -/
def STOP_WORDS : List String :=
  ["the", "a", "an", "and", "or", "but", "in", "on", "at", "to", "for",
   "of", "with", "by", "from", "is", "it", "its", "this", "that", "was",
   "are", "were", "be", "been", "being", "have", "has", "had", "do", "does",
   "did", "will", "would", "could", "should", "may", "might", "shall",
   "can", "not", "no", "nor", "so", "if", "then", "than", "too", "very",
   "just", "about", "above", "after", "again", "all", "also", "am", "any",
   "because", "before", "between", "both", "each", "few", "get", "got",
   "here", "how", "into", "more", "most", "much", "must", "my", "new",
   "now", "only", "other", "our", "out", "own", "same", "she", "some",
   "such", "there", "these", "they", "those", "through", "under", "until",
   "what", "when", "where", "which", "while", "who", "whom", "why", "you",
   "your", "we", "he", "her", "him", "his", "me", "them", "us"]

/-- `[.!?]`, the sentence-ending punctuation class. -/
def isPunctSE (c : Char) : Bool := c == '.' || c == '!' || c == '?'

/-- Worker for `splitSK`, the embedding of `split(/(?<=[.!?])\s+/)`:
`cur` is the current piece reversed, `prevPunct` records whether the
previous character was `.`, `!` or `?`, and `sepActive` whether the scanner
is inside the whitespace run of a separator match. -/
def splitSKAux : List Char → List Char → Bool → Bool → List (List Char)
  | [], cur, _, _ => [cur.reverse]
  | c :: rest, cur, prevPunct, sepActive =>
    if isWsB c then
      if sepActive then splitSKAux rest cur false true
      else if prevPunct then cur.reverse :: splitSKAux rest [] false true
      else splitSKAux rest (c :: cur) false false
    else splitSKAux rest (c :: cur) (isPunctSE c) false

/-- Embedding of `text.split(/(?<=[.!?])\s+/)`. -/
def splitSK (l : List Char) : List (List Char) := splitSKAux l [] false false

/-- `splitSentences` from textrank.ts: split after sentence punctuation,
trim, and keep only pieces longer than 10 characters. -/
def splitSentences (text : String) : List String :=
  (((splitSK text.data).map (fun l => String.mk (trimJS l))).filter
    (fun s => s.length > 10))

/-- `tokenize` from textrank.ts: lowercase, delete `[^\w\s]`, split on
whitespace, keep tokens longer than 2 characters that are not stop words. -/
def tokenizeTR (text : String) : List String :=
  (((splitWs ((text.data.map jsLower).filter
      (fun c => isWordC c || isWsB c))).map String.mk).filter
    (fun w => w.length > 2 && !(STOP_WORDS.contains w)))

/-- One `freq.set(t, (freq.get(t) ?? 0) + 1)` update on an association list
in JS `Map` insertion order. -/
def bumpFreq : List (String × ℕ) → String → List (String × ℕ)
  | [], w => [(w, 1)]
  | (k, v) :: rest, w =>
    if k = w then (k, v + 1) :: rest else (k, v) :: bumpFreq rest w

/-- `wordFrequency` from textrank.ts. -/
def wordFrequency (tokens : List String) : List (String × ℕ) :=
  tokens.foldl bumpFreq []

/-- Stable insertion step: `x` is placed before the first element `y` for
which `gt y x` fails, mirroring a JS stable comparator sort. -/
def insertByGt (gt : α → α → Bool) (x : α) : List α → List α
  | [] => [x]
  | y :: ys => if gt y x then y :: insertByGt gt x ys else x :: y :: ys

/-- Stable sort by a strict "comes before" test, the embedding of
`Array.prototype.sort` with a consistent comparator (ES2019+ sorts are
stable). -/
def sortByGt (gt : α → α → Bool) (l : List α) : List α :=
  l.foldr (insertByGt gt) []

/-- `extractKeywords` from textrank.ts: top-N tokens by frequency,
descending (stable on ties, matching JS `sort((a, b) => b[1] - a[1])`). -/
def extractKeywords (text : String) (topN : ℕ) : List String :=
  ((sortByGt (fun p q => decide (q.2 < p.2))
      (wordFrequency (tokenizeTR text))).take topN).map Prod.fst

/-- `cosineSimilarity` from textrank.ts over the union of the two key
sets. -/
noncomputable def cosineSimilarity (a b : List (String × ℕ)) : ℝ :=
  let keys := ((a.map Prod.fst) ++ (b.map Prod.fst)).dedup
  let dot : ℝ := (keys.map (fun k =>
    (((a.lookup k).getD 0 : ℕ) : ℝ) * (((b.lookup k).getD 0 : ℕ) : ℝ))).sum
  let magA : ℝ := (keys.map (fun k =>
    (((a.lookup k).getD 0 : ℕ) : ℝ) * (((a.lookup k).getD 0 : ℕ) : ℝ))).sum
  let magB : ℝ := (keys.map (fun k =>
    (((b.lookup k).getD 0 : ℕ) : ℝ) * (((b.lookup k).getD 0 : ℕ) : ℝ))).sum
  if magA = 0 ∨ magB = 0 then 0
  else dot / (Real.sqrt magA * Real.sqrt magB)

/-- The symmetric similarity matrix of textrank.ts (zero diagonal). -/
noncomputable def simMat (freqs : List (List (String × ℕ))) (i j : ℕ) : ℝ :=
  if i = j then 0 else cosineSimilarity (freqs.getD i []) (freqs.getD j [])

/-- Row sum `matrix[j].reduce((a, b) => a + b, 0)`. -/
noncomputable def outSum (n : ℕ) (freqs : List (List (String × ℕ))) (j : ℕ) : ℝ :=
  ((List.range n).map (fun i => simMat freqs j i)).sum

/-- One PageRank iteration of textrank.ts. -/
noncomputable def prStep (n : ℕ) (freqs : List (List (String × ℕ)))
    (scores : List ℝ) : List ℝ :=
  (List.range n).map (fun i =>
    (1 - 0.85) / n + 0.85 *
      ((List.range n).map (fun j =>
        if j = i then 0
        else if 0 < outSum n freqs j then
          simMat freqs j i / outSum n freqs j * scores.getD j 0
        else 0)).sum)

/-- Total score movement `delta` of one iteration. -/
noncomputable def prDelta (n : ℕ) (old new : List ℝ) : ℝ :=
  ((List.range n).map (fun i => |new.getD i 0 - old.getD i 0|)).sum

/-- The PageRank loop: at most `fuel` iterations, stopping early once the
movement drops below the threshold `0.0001`. -/
noncomputable def prIter (n : ℕ) (freqs : List (List (String × ℕ))) :
    ℕ → List ℝ → List ℝ
  | 0, scores => scores
  | fuel + 1, scores =>
    if prDelta n scores (prStep n freqs scores) < 0.0001 then prStep n freqs scores
    else prIter n freqs fuel (prStep n freqs scores)

/-- The final sentence scores of `textRank` (50 iterations of PageRank from
the uniform vector). -/
noncomputable def trScores (sentences : List String) : List ℝ :=
  let n := sentences.length
  let freqs := (sentences.map tokenizeTR).map wordFrequency
  prIter n freqs 50 (List.replicate n ((1 : ℝ) / n))

/-- `textRank` from textrank.ts: indices of the `topN` highest-scored
sentences (score-descending order), with the early return of all indices
when there are at most `topN` sentences. -/
noncomputable def textRank (sentences : List String) (topN : ℕ) : List ℕ :=
  if sentences.length = 0 then []
  else if sentences.length ≤ topN then List.range sentences.length
  else
    let scores := trScores sentences
    let indexed := scores.zip (List.range scores.length)
    ((sortByGt (fun p q => decide (q.1 < p.1)) indexed).take topN).map Prod.snd

/-! ### Structural lemmas about the sort and the scores -/

/-- Inserting is a permutation-cons. -/
lemma insertByGt_perm (gt : α → α → Bool) (x : α) (l : List α) :
    List.Perm (insertByGt gt x l) (x :: l) := by
  induction l with
  | nil => exact List.Perm.refl _
  | cons y ys ih =>
    unfold insertByGt
    split
    · exact (ih.cons y).trans (List.Perm.swap x y ys)
    · exact List.Perm.refl _

/-- The stable sort is a permutation of its input. -/
lemma sortByGt_perm (gt : α → α → Bool) (l : List α) :
    List.Perm (sortByGt gt l) l := by
  induction l with
  | nil => exact List.Perm.refl _
  | cons a l ih =>
    exact (insertByGt_perm gt a (sortByGt gt l)).trans (ih.cons a)

/-- `prIter` preserves the length `n` of the score vector. -/
lemma prIter_length (n : ℕ) (freqs : List (List (String × ℕ)))
    (fuel : ℕ) (s : List ℝ) (hs : s.length = n) :
    (prIter n freqs fuel s).length = n := by
  induction fuel generalizing s with
  | zero => exact hs
  | succ fuel ih =>
    unfold prIter
    have hlen : (prStep n freqs s).length = n := by
      simp [prStep]
    split
    · exact hlen
    · exact ih _ hlen

/-- The score vector has one entry per sentence. -/
lemma trScores_length (sentences : List String) :
    (trScores sentences).length = sentences.length := by
  unfold trScores
  exact prIter_length _ _ _ _ (by simp)

/-- C6: `textRank` returns at most `topN` indices, all smaller than the
number of sentences, and when there are at most `topN` sentences it
returns exactly all indices `0..n-1` in original order. -/
theorem textRank_structure (sentences : List String) (topN : ℕ) :
    (textRank sentences topN).length ≤ topN ∧
    (∀ i ∈ textRank sentences topN, i < sentences.length) ∧
    (sentences.length ≤ topN →
      textRank sentences topN = List.range sentences.length) := by
  by_cases h0 : sentences.length = 0
  · refine ⟨?_, ?_, ?_⟩ <;> simp [textRank, h0, List.range_zero]
  · by_cases h1 : sentences.length ≤ topN
    · have he : textRank sentences topN = List.range sentences.length := by
        simp [textRank, h0, h1]
      refine ⟨?_, ?_, fun _ => he⟩
      · rw [he, List.length_range]
        exact h1
      · intro i hi
        rw [he] at hi
        exact List.mem_range.mp hi
    · have he : textRank sentences topN =
          ((sortByGt (fun p q => decide (q.1 < p.1))
            ((trScores sentences).zip
              (List.range (trScores sentences).length))).take topN).map
            Prod.snd := by
        simp [textRank, h0, h1]
      refine ⟨?_, ?_, fun hc => absurd hc h1⟩
      · rw [he]
        simp [List.length_take]
      · intro i hi
        rw [he] at hi
        obtain ⟨p, hp, hpi⟩ := List.mem_map.mp hi
        have hp1 : p ∈ sortByGt (fun p q => decide (q.1 < p.1))
            ((trScores sentences).zip (List.range (trScores sentences).length)) :=
          List.mem_of_mem_take hp
        have hp2 : p ∈ (trScores sentences).zip
            (List.range (trScores sentences).length) :=
          (sortByGt_perm _ _).mem_iff.mp hp1
        have hsnd : p.2 ∈ List.range (trScores sentences).length :=
          (List.of_mem_zip (by simpa using hp2)).2
        rw [trScores_length] at hsnd
        rw [← hpi]
        exact List.mem_range.mp hsnd

/-- C6 witness: on a single sentence with `topN = 5`, the theorem yields
the full index list `[0]`. -/
theorem textRank_structure_witness :
    textRank ["the quick brown fox jumps"] 5 = List.range 1 :=
  (textRank_structure ["the quick brown fox jumps"] 5).2.2 (by decide)

/-! ## Highlight extraction (`src/services/nlp/localSummarizer.ts`) -/

/-- `Math.min` on naturals. -/
def jsMinN (a b : ℕ) : ℕ := if a ≤ b then a else b

/-- `extractHighlights` from localSummarizer.ts: top TextRank sentences
(up to 10), re-sorted ascending by original index (JS
`sort((a, b) => a - b)`, stable), keeping only sentences longer than 20
characters. -/
noncomputable def extractHighlights (sentences : List String) : List String :=
  if sentences = [] then []
  else
    (((sortByGt (fun a b => decide (a < b))
        (textRank sentences (jsMinN 10 sentences.length))).map
      (fun i => sentences.getD i "")).filter (fun s => s.length > 20))

/-- C3 counterexample: a top-ranked sentence whose (trimmed) length is
exactly 20 is dropped by the highlight filter, contradicting the claim
that sentences of length at least 20 are kept. -/
theorem extractHighlights_cex :
    0 ∈ textRank ["aaaaaaaaaaaaaaaaaaaa"] (jsMinN 10 1) ∧
    (strTrim "aaaaaaaaaaaaaaaaaaaa").length = 20 ∧
    extractHighlights ["aaaaaaaaaaaaaaaaaaaa"] = [] := by
  refine ⟨by decide, by decide, ?_⟩
  have hne : (["aaaaaaaaaaaaaaaaaaaa"] : List String) ≠ [] := by decide
  unfold extractHighlights
  rw [if_neg hne]
  decide

/-- C3 (amended): every top-ranked sentence strictly longer than 20
characters appears in the extracted highlights. -/
theorem extractHighlights_keeps_long (sentences : List String) (i : ℕ)
    (hi : i ∈ textRank sentences (jsMinN 10 sentences.length))
    (hlen : 20 < (sentences.getD i "").length) :
    sentences.getD i "" ∈ extractHighlights sentences := by
  have hne : sentences ≠ [] := by
    intro he
    subst he
    simp [textRank] at hi
  unfold extractHighlights
  rw [if_neg hne]
  refine List.mem_filter.mpr ⟨?_, by simpa using hlen⟩
  refine List.mem_map.mpr ⟨i, ?_, rfl⟩
  exact (sortByGt_perm _ _).mem_iff.mpr hi

/-- C3 witness: a 21-character sentence is kept. -/
theorem extractHighlights_keeps_long_witness :
    (["aaaaaaaaaaaaaaaaaaaaa"] : List String).getD 0 "" ∈
      extractHighlights ["aaaaaaaaaaaaaaaaaaaaa"] :=
  extractHighlights_keeps_long ["aaaaaaaaaaaaaaaaaaaaa"] 0 (by decide) (by decide)

/-! ## Chunking (`src/utils/text.ts`)

`chunkText` is embedded at the character-list level (a JS string is its
sequence of characters). -/

/-- The loop of `chunkText`: `cur` is the chunk under construction; a
sentence that would overflow `maxChars` (when `cur` is nonempty) flushes
`cur.trim()` and restarts from that sentence; at the end a nonempty
`cur.trim()` is flushed. -/
def chunkCore (m : ℕ) : List (List Char) → List Char → List (List Char)
  | [], cur => if trimJS cur = [] then [] else [trimJS cur]
  | s :: rest, cur =>
    if cur.length + s.length + 1 > m ∧ cur.length > 0 then
      trimJS cur :: chunkCore m rest s
    else
      chunkCore m rest (if cur.isEmpty then s else cur ++ ' ' :: s)

/-- `chunkText` from text.ts: texts that fit are returned whole; longer
texts are split at sentence boundaries (`split(/(?<=[.!?])\s+/)`) and
reassembled greedily. -/
def chunkText (t : List Char) (m : ℕ) : List (List Char) :=
  if t.length ≤ m then [t] else chunkCore m (splitSK t) []

/-! ### Segment and trim lemmas -/

lemma subseg_refl (u : List Char) : Subseg u u := ⟨[], [], by simp⟩

lemma subseg_trans {u v w : List Char} (h1 : Subseg u v) (h2 : Subseg v w) :
    Subseg u w := by
  obtain ⟨a, b, hv⟩ := h1
  obtain ⟨c, d, hw⟩ := h2
  exact ⟨c ++ a, b ++ d, by simp [hw, hv]⟩

lemma subseg_cons {u t : List Char} (c : Char) (h : Subseg u t) :
    Subseg u (c :: t) := by
  obtain ⟨a, b, ht⟩ := h
  exact ⟨c :: a, b, by simp [ht]⟩

lemma subseg_append_left {u t : List Char} (pre : List Char) (h : Subseg u t) :
    Subseg u (pre ++ t) := by
  obtain ⟨a, b, ht⟩ := h
  exact ⟨pre ++ a, b, by simp [ht]⟩

lemma subseg_append_right {u t : List Char} (post : List Char) (h : Subseg u t) :
    Subseg u (t ++ post) := by
  obtain ⟨a, b, ht⟩ := h
  exact ⟨a, b ++ post, by simp [ht]⟩

lemma subseg_reverse {u t : List Char} (h : Subseg u t) :
    Subseg u.reverse t.reverse := by
  obtain ⟨a, b, ht⟩ := h
  exact ⟨b.reverse, a.reverse, by simp [ht]⟩

lemma subseg_mem {u t : List Char} (h : Subseg u t) {c : Char} (hc : c ∈ u) :
    c ∈ t := by
  obtain ⟨a, b, ht⟩ := h
  subst ht
  simp [hc]

/-- The trimmed list sits in the middle of the original. -/
lemma trimJS_subseg (l : List Char) : Subseg (trimJS l) l := by
  have h1 : l = l.takeWhile isWsB ++ trimL l :=
    (List.takeWhile_append_dropWhile isWsB l).symm
  have h2 : (trimL l).reverse =
      (trimL l).reverse.takeWhile isWsB ++ trimL ((trimL l).reverse) :=
    (List.takeWhile_append_dropWhile isWsB _).symm
  have h3 : trimL l = trimJS l ++ ((trimL l).reverse.takeWhile isWsB).reverse := by
    have h4 := congrArg List.reverse h2
    simp only [List.reverse_reverse, List.reverse_append] at h4
    exact h4
  refine ⟨l.takeWhile isWsB, ((trimL l).reverse.takeWhile isWsB).reverse, ?_⟩
  rw [List.append_assoc, ← h3]
  exact h1

lemma trimJS_length_le (l : List Char) : (trimJS l).length ≤ l.length := by
  obtain ⟨a, b, h⟩ := trimJS_subseg l
  have hl := congrArg List.length h
  simp only [List.length_append] at hl
  omega

lemma head?_trimL_not_ws {l : List Char} {c : Char}
    (h : (trimL l).head? = some c) : isWsB c = false := by
  have := List.head?_dropWhile_not isWsB l
  rw [show l.dropWhile isWsB = trimL l from rfl, h] at this
  exact this

/-- The first character of a trimmed list is not whitespace. -/
lemma head?_trimJS_not_ws {l : List Char} {c : Char}
    (h : (trimJS l).head? = some c) : isWsB c = false := by
  unfold trimJS at h
  rw [List.head?_reverse] at h
  have hne : trimL ((trimL l).reverse) ≠ [] := by
    intro he
    rw [he] at h
    simp at h
  have hdec : (trimL l).reverse =
      (trimL l).reverse.takeWhile isWsB ++ trimL ((trimL l).reverse) :=
    (List.takeWhile_append_dropWhile isWsB _).symm
  have hlast : ((trimL l).reverse).getLast? = some c := by
    rw [hdec, List.getLast?_append_of_ne_nil _ hne]
    exact h
  rw [List.getLast?_reverse] at hlast
  exact head?_trimL_not_ws hlast

/-- The last character of a trimmed list is not whitespace. -/
lemma head?_trimJS_reverse_not_ws {l : List Char} {c : Char}
    (h : (trimJS l).reverse.head? = some c) : isWsB c = false := by
  unfold trimJS at h
  rw [List.reverse_reverse] at h
  exact head?_trimL_not_ws h

lemma mem_trimL_of_not_ws {l : List Char} {c : Char} (hm : c ∈ l)
    (hc : isWsB c = false) : c ∈ trimL l := by
  induction l with
  | nil => cases hm
  | cons a l ih =>
    unfold trimL List.dropWhile
    rcases List.mem_cons.mp hm with rfl | hm'
    · rw [hc]
      simp
    · by_cases ha : isWsB a
      · rw [ha]
        exact ih hm'
      · rw [Bool.not_eq_true] at ha
        rw [ha]
        simp [hm']

lemma trimJS_ne_of_mem {l : List Char} {c : Char} (hm : c ∈ l)
    (hc : isWsB c = false) : trimJS l ≠ [] := by
  have h1 : c ∈ trimL l := mem_trimL_of_not_ws hm hc
  have h2 : c ∈ (trimL l).reverse := List.mem_reverse.mpr h1
  have h3 : c ∈ trimL ((trimL l).reverse) := mem_trimL_of_not_ws h2 hc
  have h4 : c ∈ trimJS l := by
    unfold trimJS
    exact List.mem_reverse.mpr h3
  intro he
  rw [he] at h4
  cases h4

lemma exists_not_ws_of_trimJS_ne {l : List Char} (h : trimJS l ≠ []) :
    ∃ c ∈ l, isWsB c = false := by
  obtain ⟨c, rest, hc⟩ := List.exists_cons_of_ne_nil h
  refine ⟨c, ?_, head?_trimJS_not_ws (by rw [hc]; rfl)⟩
  exact subseg_mem (trimJS_subseg l) (by rw [hc]; simp)

/-- A segment with a non-whitespace first character survives a left trim. -/
lemma subseg_trimL_of_subseg {u t : List Char} {c : Char} (h : Subseg u t)
    (hu : u.head? = some c) (hc : isWsB c = false) : Subseg u (trimL t) := by
  obtain ⟨a, b, ht⟩ := h
  induction a generalizing t with
  | nil =>
    cases u with
    | nil => cases hu
    | cons x u' =>
      have hx : x = c := by
        simpa using hu
      subst hx
      rw [ht]
      unfold trimL
      simp only [List.nil_append, List.cons_append, List.dropWhile_cons, hc]
      exact ⟨[], b, by simp⟩
  | cons x a' ih =>
    subst ht
    unfold trimL
    simp only [List.cons_append, List.dropWhile_cons]
    by_cases hx : isWsB x
    · rw [hx]
      simpa [trimL] using ih rfl
    · rw [Bool.not_eq_true] at hx
      rw [hx]
      exact ⟨x :: a', b, by simp⟩

/-- A nonempty segment that is itself trimmed (non-whitespace first and
last characters) survives a full trim of its context. -/
lemma subseg_trimJS_of_subseg {u t : List Char} (h : Subseg u t)
    {c d : Char} (hu : u.head? = some c) (hc : isWsB c = false)
    (hv : u.reverse.head? = some d) (hd : isWsB d = false) :
    Subseg u (trimJS t) := by
  have s1 : Subseg u (trimL t) := subseg_trimL_of_subseg h hu hc
  have s2 : Subseg u.reverse (trimL t).reverse := subseg_reverse s1
  have s3 : Subseg u.reverse (trimL ((trimL t).reverse)) :=
    subseg_trimL_of_subseg s2 hv hd
  have s4 := subseg_reverse s3
  rw [List.reverse_reverse] at s4
  exact s4

/-- Every piece produced by the sentence splitter is a contiguous segment
of its input (with the current reversed accumulator prepended). -/
lemma splitSKAux_subseg (l : List Char) :
    ∀ (cur : List Char) (pp sep : Bool), (sep = true → cur = []) →
      ∀ p ∈ splitSKAux l cur pp sep, Subseg p (cur.reverse ++ l) := by
  induction l with
  | nil =>
    intro cur pp sep hinv p hp
    simp only [splitSKAux, List.mem_singleton] at hp
    subst hp
    exact ⟨[], [], by simp⟩
  | cons c rest ih =>
    intro cur pp sep hinv p hp
    by_cases hw : isWsB c = true
    · cases sep with
      | true =>
        have hcur := hinv rfl
        subst hcur
        simp only [splitSKAux, hw, if_true] at hp
        have := ih [] false true (fun _ => rfl) p hp
        simpa using subseg_cons c (by simpa using this)
      | false =>
        cases pp with
        | true =>
          simp only [splitSKAux, hw, if_true, Bool.false_eq_true, if_false,
            List.mem_cons] at hp
          rcases hp with rfl | hp
          · exact ⟨[], c :: rest, by simp⟩
          · have := ih [] false true (fun _ => rfl) p hp
            exact subseg_append_left cur.reverse (subseg_cons c (by simpa using this))
        | false =>
          simp only [splitSKAux, hw, if_true, Bool.false_eq_true, if_false] at hp
          have := ih (c :: cur) false false (by simp) p hp
          simpa [List.append_assoc] using this
    · simp only [splitSKAux, hw, Bool.false_eq_true, if_false] at hp
      have := ih (c :: cur) (isPunctSE c) false (by simp) p hp
      simpa [List.append_assoc] using this

/-- Every sentence piece is a contiguous segment of the input text. -/
lemma splitSK_subseg {t : List Char} {p : List Char} (hp : p ∈ splitSK t) :
    Subseg p t := by
  have := splitSKAux_subseg t [] false false (by simp) p hp
  simpa using this

/-- Invariant-carrying chunk-size lemma: assuming every pending sentence is
in `sents` and the accumulator either fits in `m` or is itself a sentence,
every produced chunk either fits in `m` or is the trim of a single
oversized sentence. -/
lemma chunkCore_len (m : ℕ) (sents : List (List Char)) :
    ∀ (ss : List (List Char)) (cur : List Char),
      (∀ x ∈ ss, x ∈ sents) → (cur.length ≤ m ∨ cur ∈ sents) →
      ∀ c ∈ chunkCore m ss cur,
        c.length ≤ m ∨ ∃ s ∈ sents, c = trimJS s ∧ m < s.length := by
  intro ss
  induction ss with
  | nil =>
    intro cur _ hcur c hc
    unfold chunkCore at hc
    split at hc
    · cases hc
    · simp only [List.mem_singleton] at hc
      subst hc
      by_cases hlen : (trimJS cur).length ≤ m
      · exact Or.inl hlen
      · rcases hcur with h | h
        · exact absurd (le_trans (trimJS_length_le cur) h) hlen
        · exact Or.inr ⟨cur, h, rfl, by
            have := trimJS_length_le cur
            omega⟩
  | cons s rest ih =>
    intro cur hss hcur c hc
    unfold chunkCore at hc
    split at hc
    · rename_i hcond
      rcases List.mem_cons.mp hc with rfl | hc'
      · by_cases hlen : (trimJS cur).length ≤ m
        · exact Or.inl hlen
        · rcases hcur with h | h
          · exact absurd (le_trans (trimJS_length_le cur) h) hlen
          · exact Or.inr ⟨cur, h, rfl, by
              have := trimJS_length_le cur
              omega⟩
      · exact ih s (fun x hx => hss x (by simp [hx]))
          (Or.inr (hss s (by simp))) c hc'
    · rename_i hcond
      refine ih _ (fun x hx => hss x (by simp [hx])) ?_ c hc
      by_cases hemp : cur.isEmpty
      · rw [if_pos hemp]
        exact Or.inr (hss s (by simp))
      · rw [if_neg hemp]
        left
        have hpos : cur.length > 0 := by
          cases cur with
          | nil => simp at hemp
          | cons a l => simp
        have : ¬ (cur.length + s.length + 1 > m) := fun h => hcond ⟨h, hpos⟩
        simp only [List.length_append, List.length_cons]
        omega

/-- The trim of the accumulator always ends up inside some produced
chunk. -/
lemma chunkCore_cur_content (m : ℕ) :
    ∀ (ss : List (List Char)) (cur : List Char), trimJS cur ≠ [] →
      ∃ c ∈ chunkCore m ss cur, Subseg (trimJS cur) c := by
  intro ss
  induction ss with
  | nil =>
    intro cur h
    refine ⟨trimJS cur, ?_, subseg_refl _⟩
    unfold chunkCore
    rw [if_neg h]
    simp
  | cons s rest ih =>
    intro cur h
    unfold chunkCore
    split
    · exact ⟨trimJS cur, by simp, subseg_refl _⟩
    · rename_i hcond
      have hemp : ¬ cur.isEmpty := by
        intro he
        rw [List.isEmpty_iff] at he
        subst he
        exact h rfl
      rw [if_neg hemp]
      obtain ⟨d, hd, hdw⟩ := exists_not_ws_of_trimJS_ne h
      have hnew : trimJS (cur ++ ' ' :: s) ≠ [] :=
        trimJS_ne_of_mem (by simp [hd]) hdw
      obtain ⟨c, hc, hsub⟩ := ih (cur ++ ' ' :: s) hnew
      refine ⟨c, hc, subseg_trans ?_ hsub⟩
      obtain ⟨x, hx⟩ := List.exists_cons_of_ne_nil h
      obtain ⟨x', hx'⟩ := hx
      have hhead : (trimJS cur).head? = some x := by rw [hx']; rfl
      obtain ⟨y, hy⟩ := List.exists_cons_of_ne_nil
        (show (trimJS cur).reverse ≠ [] by simpa using h)
      obtain ⟨y', hy'⟩ := hy
      have hlast : (trimJS cur).reverse.head? = some y := by rw [hy']; rfl
      exact subseg_trimJS_of_subseg
        (subseg_append_right (' ' :: s) (trimJS_subseg cur))
        hhead (head?_trimJS_not_ws hhead)
        hlast (head?_trimJS_reverse_not_ws hlast)

/-- Every sentence with nonempty trim ends up (trimmed) inside some
chunk. -/
lemma chunkCore_content (m : ℕ) :
    ∀ (ss : List (List Char)) (cur : List Char), ∀ s ∈ ss, trimJS s ≠ [] →
      ∃ c ∈ chunkCore m ss cur, Subseg (trimJS s) c := by
  intro ss
  induction ss with
  | nil =>
    intro cur s hs
    cases hs
  | cons s0 rest ih =>
    intro cur s hs hts
    rcases List.mem_cons.mp hs with rfl | hs'
    · unfold chunkCore
      split
      · obtain ⟨c, hc, hsub⟩ := chunkCore_cur_content m rest s hts
        exact ⟨c, by simp [hc], hsub⟩
      · rename_i hcond
        by_cases hemp : cur.isEmpty
        · rw [if_pos hemp]
          exact chunkCore_cur_content m rest s hts
        · rw [if_neg hemp]
          obtain ⟨d, hd, hdw⟩ := exists_not_ws_of_trimJS_ne hts
          have hnew : trimJS (cur ++ ' ' :: s) ≠ [] :=
            trimJS_ne_of_mem (by simp [hd]) hdw
          obtain ⟨c, hc, hsub⟩ := chunkCore_cur_content m rest _ hnew
          refine ⟨c, hc, subseg_trans ?_ hsub⟩
          obtain ⟨x, x', hx'⟩ := List.exists_cons_of_ne_nil hts
          have hhead : (trimJS s).head? = some x := by rw [hx']; rfl
          obtain ⟨y, y', hy'⟩ := List.exists_cons_of_ne_nil
            (show (trimJS s).reverse ≠ [] by simpa using hts)
          have hlast : (trimJS s).reverse.head? = some y := by rw [hy']; rfl
          refine subseg_trimJS_of_subseg ?_ hhead (head?_trimJS_not_ws hhead)
            hlast (head?_trimJS_reverse_not_ws hlast)
          obtain ⟨a, b, hab⟩ := trimJS_subseg s
          refine ⟨cur ++ ' ' :: a, b, ?_⟩
          conv_lhs => rw [hab]
          simp
    · unfold chunkCore
      split
      · obtain ⟨c, hc, hsub⟩ := ih s0 s hs' hts
        exact ⟨c, by simp [hc], hsub⟩
      · exact ih _ s hs' hts

/-- C5: `chunkText` returns the whole text when it fits; otherwise every
chunk fits in `maxChars` except a chunk that is the trim of one single
oversized sentence; no sentence content is dropped (every sentence with
nonempty trim occurs inside a chunk); and the 100-character text at
`maxChars = 100` comes back as a single chunk. -/
theorem chunkText_spec (t : List Char) (m : ℕ) :
    (t.length ≤ m → chunkText t m = [t]) ∧
    (∀ c ∈ chunkText t m,
      c.length ≤ m ∨ ∃ s ∈ splitSK t, c = trimJS s ∧ m < s.length) ∧
    (∀ s ∈ splitSK t, trimJS s ≠ [] →
      ∃ c ∈ chunkText t m, Subseg (trimJS s) c) ∧
    chunkText (List.replicate 100 'x') 100 = [List.replicate 100 'x'] := by
  refine ⟨fun h => by simp [chunkText, h], ?_, ?_, by simp [chunkText]⟩
  · intro c hc
    unfold chunkText at hc
    split at hc
    · rename_i h
      simp only [List.mem_singleton] at hc
      subst hc
      exact Or.inl h
    · exact chunkCore_len m (splitSK t) (splitSK t) [] (fun x hx => hx)
        (Or.inl (by simp)) c hc
  · intro s hs hts
    unfold chunkText
    split
    · refine ⟨t, by simp, ?_⟩
      exact subseg_trans (trimJS_subseg s) (splitSK_subseg hs)
    · exact chunkCore_content m (splitSK t) [] s hs hts

/-- C5 witness: the exact-fit text comes back whole, and an oversize text
keeps its first sentence inside some chunk. -/
theorem chunkText_spec_witness :
    chunkText (List.replicate 100 'x') 100 = [List.replicate 100 'x'] ∧
    ∃ c ∈ chunkText "abcdef. ghijkl.".data 10,
      Subseg (trimJS "abcdef.".data) c :=
  ⟨(chunkText_spec (List.replicate 100 'x') 100).1 (by simp),
   (chunkText_spec "abcdef. ghijkl.".data 10).2.2.1 "abcdef.".data
     (by decide) (by decide)⟩

/-! ## A small backtracking regex engine

The cue patterns of `OfflineProvider.ts` are compiled to this explicit
matcher.  `runRE` enumerates all matches at one position in ECMAScript
backtracking preference order: ordered alternation, greedy quantifiers
(every quantified subexpression in the source is a character class, so
quantifiers are modelled by class runs); `reSearch` scans positions left to
right, giving the leftmost match of `String.prototype.match`. -/

inductive RE where
  | eps : RE
  | lit : List Char → RE
  | cls : (Char → Bool) → RE
  | plusC : (Char → Bool) → RE
  | starC : (Char → Bool) → RE
  | seq : RE → RE → RE
  | alt : RE → RE → RE
  | grp : RE → RE

/-- Case-insensitive literal prefix test (the pattern is stored
lowercase). -/
def swCI : List Char → List Char → Bool
  | [], _ => true
  | _ :: _, [] => false
  | a :: u, b :: t => a == jsLower b && swCI u t

/-- All matches of `re` at the start of `s`, in preference order; each
result is the remaining input and the group-1 capture, if any. -/
def runRE : RE → List Char → List (List Char × Option (List Char))
  | .eps, s => [(s, none)]
  | .lit w, s => if swCI w s then [(s.drop w.length, none)] else []
  | .cls f, s =>
    match s with
    | [] => []
    | c :: rest => if f c then [(rest, none)] else []
  | .plusC f, s =>
    (List.range (s.takeWhile f).length).map
      (fun j => (s.drop ((s.takeWhile f).length - j), none))
  | .starC f, s =>
    ((List.range (s.takeWhile f).length).map
      (fun j => (s.drop ((s.takeWhile f).length - j), none))) ++ [(s, none)]
  | .seq a b, s =>
    (runRE a s).flatMap (fun p =>
      (runRE b p.1).map (fun q => (q.1, p.2.orElse (fun _ => q.2))))
  | .alt a b, s => runRE a s ++ runRE b s
  | .grp a, s =>
    (runRE a s).map (fun p => (p.1, some (s.take (s.length - p.1.length))))

/-- The preferred match of `re` at the start of `s`. -/
def reFirst (re : RE) (s : List Char) : Option (List Char × Option (List Char)) :=
  (runRE re s).head?

/-- Leftmost match: the capture (possibly `none`) of the first position at
which `re` matches, or `none` when the regex does not match at all. -/
def reSearch (re : RE) : List Char → Option (Option (List Char))
  | [] => (reFirst re []).map Prod.snd
  | c :: rest =>
    match reFirst re (c :: rest) with
    | some p => some p.2
    | none => reSearch re rest

/-- Anchored (`^`) match. -/
def reMatchAt0 (re : RE) (s : List Char) : Option (Option (List Char)) :=
  (reFirst re s).map Prod.snd

/-- A case-insensitive literal. -/
def rlit (s : String) : RE := .lit (s.data.map jsLower)

/-- `x?`, greedy. -/
def optRE (a : RE) : RE := .alt a .eps

/-- Sequence a list of regexes. -/
def seqL : List RE → RE
  | [] => .eps
  | [r] => r
  | r :: rest => .seq r (seqL rest)

/-- The JS `.` class (anything but a line terminator). -/
def dotClass (c : Char) : Bool :=
  !(c == '
' || c == '
' || c.toNat == 0x2028 || c.toNat == 0x2029)

/-- `\s+`. -/
def wsPlus : RE := .plusC isWsB

/-- `(.+)`. -/
def dotPlusGrp : RE := .grp (.plusC dotClass)

/-- `(?:i|we|he|she|they|you)`. -/
def pronouns : RE :=
  .alt (rlit "i") (.alt (rlit "we") (.alt (rlit "he")
    (.alt (rlit "she") (.alt (rlit "they") (rlit "you")))))

/-- The eight `ACTION_CUES` regexes of OfflineProvider.ts, in order. -/
def ACTION_CUES_RE : List RE :=
  [seqL [pronouns, wsPlus, rlit "will", wsPlus, dotPlusGrp],
   seqL [pronouns, wsPlus, rlit "need", wsPlus, rlit "to", wsPlus, dotPlusGrp],
   seqL [rlit "please", wsPlus, dotPlusGrp],
   seqL [rlit "action", .starC isWsB, rlit "item",
     .plusC (fun c => c == ':' || isWsB c), dotPlusGrp],
   seqL [rlit "todo", .plusC (fun c => c == ':' || isWsB c), dotPlusGrp],
   seqL [pronouns, wsPlus, rlit "should", wsPlus, dotPlusGrp],
   seqL [rlit "make sure", wsPlus, dotPlusGrp],
   seqL [rlit "follow", wsPlus, rlit "up", wsPlus,
     .alt (rlit "on") (rlit "with"), wsPlus, dotPlusGrp]]

/-- `/^([\w]+)\s+(?:will|need|should)/i`. -/
def subjectRE : RE :=
  seqL [.grp (.plusC isWordC), wsPlus,
    .alt (rlit "will") (.alt (rlit "need") (rlit "should"))]

/-- `\d{1,2}`. -/
def digit12 : RE := .seq (.cls isDigitC) (optRE (.cls isDigitC))

/-- `\d{2,4}`, greedy. -/
def digit24 : RE :=
  seqL [.cls isDigitC, .cls isDigitC,
    .alt (.seq (.cls isDigitC) (optRE (.cls isDigitC))) .eps]

/-- `\d{1,2}\/\d{1,2}(?:\/\d{2,4})?`. -/
def numericDate : RE :=
  seqL [digit12, .cls (fun c => c == '/'), digit12,
    optRE (.seq (.cls (fun c => c == '/')) digit24)]

/-- The due-date regex of OfflineProvider.ts. -/
def dateRE : RE :=
  seqL [rlit "by", wsPlus, .grp
    (.alt (rlit "monday") (.alt (rlit "tuesday") (.alt (rlit "wednesday")
      (.alt (rlit "thursday") (.alt (rlit "friday") (.alt (rlit "saturday")
      (.alt (rlit "sunday") (.alt (rlit "tomorrow")
      (.alt (seqL [rlit "next", wsPlus, rlit "week"])
      (.alt (seqL [rlit "end", wsPlus, rlit "of", wsPlus,
        .alt (rlit "day") (.alt (rlit "week") (rlit "month"))])
        numericDate))))))))))]

/-! ## OfflineProvider (`src/services/ai/offline/OfflineProvider.ts`) -/

/-- `DECISION_CUES`: all eleven patterns are plain case-insensitive
literals, so the `test` of each is a substring check. -/
def DECISION_CUES : List String :=
  ["we decided", "it was decided", "the decision is", "we agreed",
   "agreed to", "will go with", "final decision", "conclusion is",
   "we'll proceed", "approved", "let's go ahead"]

/-- `QUESTION_STARTERS` from OfflineProvider.ts. -/
def QUESTION_STARTERS : List String :=
  ["Who is responsible for", "When will", "What is the timeline for",
   "Why was", "How will we handle", "What are the next steps for",
   "Who will follow up on", "What is the status of"]

/-- `extractDecisions` from OfflineProvider.ts. -/
def extractDecisions (sentences : List String) : List String :=
  (sentences.filter (fun s => DECISION_CUES.any (fun cue => containsCI cue s))).take 10

/-- An action item. -/
structure ActionItem where
  owner : String
  task : String
  due : Option String
deriving DecidableEq

/-- `match[1]?.trim() || sentence.trim()`: the trimmed capture, falling
back to the trimmed sentence when the capture is missing or trims to the
empty string. -/
def taskOf (cap : Option (List Char)) (sentence : List Char) : List Char :=
  match cap with
  | some c => if trimJS c = [] then trimJS sentence else trimJS c
  | none => trimJS sentence

/-- The inner cue loop of `extractActionItems`: the first cue whose match
yields a task of length at least 5 that is not already in `seen` wins
(`continue` advances to the next cue). -/
def tryCues : List RE → List Char → List (List Char) → Option (List Char)
  | [], _, _ => none
  | cue :: rest, sent, seen =>
    match reSearch cue sent with
    | none => tryCues rest sent seen
    | some cap =>
      if (taskOf cap sent).length < 5 ∨ seen.contains ((taskOf cap sent).map jsLower)
      then tryCues rest sent seen
      else some (taskOf cap sent)

/-- Owner detection: the anchored subject match, unless the subject is
"i" or "we" (case-insensitively). -/
def ownerOf (sent : List Char) (userName : String) : String :=
  match reMatchAt0 subjectRE sent with
  | some (some subj) =>
    if subj.map jsLower = "i".data ∨ subj.map jsLower = "we".data then userName
    else String.mk subj
  | _ => userName

/-- Due-date detection. -/
def dueOf (sent : List Char) : Option String :=
  match reSearch dateRE sent with
  | some (some d) => some (String.mk d)
  | _ => none

/-- The sentence loop of `extractActionItems`, threading the `seen` set of
lowercased tasks. -/
def extractActionItemsGo : List String → List (List Char) → String → List ActionItem
  | [], _, _ => []
  | s :: rest, seen, userName =>
    match tryCues ACTION_CUES_RE s.data seen with
    | none => extractActionItemsGo rest seen userName
    | some task =>
      ⟨ownerOf s.data userName, String.mk task, dueOf s.data⟩ ::
        extractActionItemsGo rest (task.map jsLower :: seen) userName

/-- `extractActionItems` from OfflineProvider.ts. -/
def extractActionItems (sentences : List String) (userName : String) :
    List ActionItem :=
  extractActionItemsGo sentences [] userName

/-- `extractTopics` from OfflineProvider.ts. -/
def capFirst (s : String) : String :=
  match s.data with
  | [] => s
  | c :: rest => String.mk (jsUpper c :: rest)

/-- `extractTopics` from OfflineProvider.ts: top keywords longer than 3
characters, capitalised. -/
def extractTopics (text : String) : List String :=
  (((extractKeywords text 20).filter (fun kw => kw.length > 3)).take 10).map capFirst

/-- The `while (usedStarters.has(idx) && usedStarters.size < 8)` probe of
`generateFollowUps`; the fuel 16 exceeds the worst-case number of probe
steps, so the bounded recursion agrees with the JS loop whenever the loop
terminates. -/
def findFreeIdx : ℕ → List ℕ → ℕ → ℕ
  | 0, _, idx => idx
  | fuel + 1, used, idx =>
    if used.contains idx ∧ used.length < QUESTION_STARTERS.length then
      findFreeIdx fuel used ((idx + 1) % QUESTION_STARTERS.length)
    else idx

/-- The topic loop of `generateFollowUps`; `rand t` is the value of
`Math.floor(Math.random() * QUESTION_STARTERS.length)` at the `t`-th call. -/
def generateFollowUpsGo (rand : ℕ → ℕ) :
    List String → ℕ → List ℕ → List String
  | [], _, _ => []
  | topic :: rest, t, used =>
    (QUESTION_STARTERS.getD (findFreeIdx 16 used (rand t)) "" ++ " " ++ topic ++ "?") ::
      generateFollowUpsGo rand rest (t + 1)
        (if used.contains (findFreeIdx 16 used (rand t)) then used
         else findFreeIdx 16 used (rand t) :: used)

/-- `generateFollowUps` from OfflineProvider.ts, parameterised by the
random index source. -/
def generateFollowUps (rand : ℕ → ℕ) (topics : List String) : List String :=
  (generateFollowUpsGo rand (topics.take 5) 0 []).take 5

/-- The worker of `splitDotWs`, the embedding of `split(/\.\s+/)`:
`pend` records a pending `.` that becomes part of the separator exactly
when whitespace follows, `sep` an active separator whitespace run. -/
def splitDotWsAux : List Char → List Char → Bool → Bool → List (List Char)
  | [], cur, pend, _ => [(if pend then '.' :: cur else cur).reverse]
  | c :: rest, cur, pend, sep =>
    if isWsB c then
      if pend then cur.reverse :: splitDotWsAux rest [] false true
      else if sep then splitDotWsAux rest cur false true
      else splitDotWsAux rest (c :: cur) false false
    else if c == '.' then
      splitDotWsAux rest (if pend then '.' :: cur else cur) true false
    else
      splitDotWsAux rest (c :: (if pend then '.' :: cur else cur)) false false

/-- The sentiment segments of `summarize`:
`transcript.split(/\.\s+/).filter(Boolean)`. -/
def sentimentSegments (transcript : String) : List String :=
  ((splitDotWsAux transcript.data [] false false).map String.mk).filter
    (fun s => s ≠ "")

/-- `AiSummaryResult` from AiProvider.ts (sentiment scores as exact
rationals). -/
structure AiSummaryResult where
  tldr : List String
  keyPoints : List String
  decisions : List String
  actionItems : List ActionItem
  openQuestions : List String
  topics : List String
  highlights : List String
  followUps : List String
  sentimentBySegment : List ℚ

/-- `OfflineProvider.summarize`, parameterised by the random index source
used only by `generateFollowUps`. -/
noncomputable def summarize (rand : ℕ → ℕ) (transcript userName : String) :
    AiSummaryResult :=
  let sentences := splitSentences transcript
  ⟨(sortByGt (fun a b => decide (a < b))
      (textRank sentences (jsMinN 5 sentences.length))).map
      (fun i => sentences.getD i ""),
   (sortByGt (fun a b => decide (a < b))
      (textRank sentences (jsMinN 10 sentences.length))).map
      (fun i => sentences.getD i ""),
   extractDecisions sentences,
   extractActionItems sentences userName,
   (sentences.filter (fun s => (trimJS s.data).getLast? = some '?')).take 10,
   extractTopics transcript,
   ((sortByGt (fun a b => decide (a < b))
      (textRank sentences (jsMinN 10 sentences.length))).map
      (fun i => sentences.getD i "")).filter (fun s => s.length > 20),
   generateFollowUps rand (extractTopics transcript),
   analyzeSentimentBatch (sentimentSegments transcript)⟩

/-! ### Projection lemmas for `summarize` -/

lemma summarize_decisions (rand : ℕ → ℕ) (t u : String) :
    (summarize rand t u).decisions = extractDecisions (splitSentences t) := rfl

lemma summarize_actionItems (rand : ℕ → ℕ) (t u : String) :
    (summarize rand t u).actionItems = extractActionItems (splitSentences t) u := rfl

lemma summarize_openQuestions (rand : ℕ → ℕ) (t u : String) :
    (summarize rand t u).openQuestions =
      ((splitSentences t).filter
        (fun s => (trimJS s.data).getLast? = some '?')).take 10 := rfl

lemma summarize_topics (rand : ℕ → ℕ) (t u : String) :
    (summarize rand t u).topics = extractTopics t := rfl

lemma summarize_tldr (rand : ℕ → ℕ) (t u : String) :
    (summarize rand t u).tldr =
      (sortByGt (fun a b => decide (a < b))
        (textRank (splitSentences t) (jsMinN 5 (splitSentences t).length))).map
        (fun i => (splitSentences t).getD i "") := rfl

lemma summarize_keyPoints (rand : ℕ → ℕ) (t u : String) :
    (summarize rand t u).keyPoints =
      (sortByGt (fun a b => decide (a < b))
        (textRank (splitSentences t) (jsMinN 10 (splitSentences t).length))).map
        (fun i => (splitSentences t).getD i "") := rfl

lemma summarize_highlights (rand : ℕ → ℕ) (t u : String) :
    (summarize rand t u).highlights =
      ((sortByGt (fun a b => decide (a < b))
        (textRank (splitSentences t) (jsMinN 10 (splitSentences t).length))).map
        (fun i => (splitSentences t).getD i "")).filter
        (fun s => s.length > 20) := rfl

lemma summarize_followUps (rand : ℕ → ℕ) (t u : String) :
    (summarize rand t u).followUps = generateFollowUps rand (extractTopics t) := rfl

lemma summarize_sentiment (rand : ℕ → ℕ) (t u : String) :
    (summarize rand t u).sentimentBySegment =
      analyzeSentimentBatch (sentimentSegments t) := rfl

lemma textRank_nil (k : ℕ) : textRank [] k = [] := by
  simp [textRank]

/-- C1: on the end-to-end scenario transcript with user "TestUser", the
summary's decisions contain the /decided/i sentence and the open questions
contain the final question, but the action-item extractor returns the
empty sequence: no ACTION_CUES pattern matches "Alice will prepare the Q2
budget report by Friday." (the cues require a literal pronoun subject), so
no item with owner "Alice" exists, contradicting the claim and the
repository's own test. -/
theorem summarize_c1_scenario (rand : ℕ → ℕ) :
    (∃ d ∈ (summarize rand ("Revenue grew by 15% last quarter. " ++
        "We decided to move forward with the new platform. " ++
        "Alice will prepare the Q2 budget report by Friday. " ++
        "When will the new hire start?") "TestUser").decisions,
      containsCI "decided" d = true) ∧
    "When will the new hire start?" ∈ (summarize rand
      ("Revenue grew by 15% last quarter. " ++
        "We decided to move forward with the new platform. " ++
        "Alice will prepare the Q2 budget report by Friday. " ++
        "When will the new hire start?") "TestUser").openQuestions ∧
    (summarize rand ("Revenue grew by 15% last quarter. " ++
        "We decided to move forward with the new platform. " ++
        "Alice will prepare the Q2 budget report by Friday. " ++
        "When will the new hire start?") "TestUser").actionItems = [] := by
  refine ⟨?_, ?_, ?_⟩
  · rw [summarize_decisions]
    exact ⟨"We decided to move forward with the new platform.", by decide, by decide⟩
  · rw [summarize_openQuestions]
    decide
  · rw [summarize_actionItems]
    decide

/-- C7 counterexample: the transcript "catt. dogg." yields no sentences,
yet `topics` (computed from the raw text, not the sentences) is nonempty,
so not every sequence field of the summary is empty. -/
theorem summarize_no_sentences_cex :
    splitSentences "catt. dogg." = [] ∧
    (summarize (fun _ => 0) "catt. dogg." "U").topics = ["Catt", "Dogg"] := by
  refine ⟨by decide, ?_⟩
  rw [summarize_topics]
  decide

/-- C7 (amended): on the empty transcript every sequence field of the
summary is empty; on any transcript that yields no sentences, the six
sentence-derived fields (tldr, keyPoints, decisions, actionItems,
openQuestions, highlights) are empty, while topics, followUps and
sentimentBySegment are derived from the raw text and need not be. -/
theorem summarize_empty_total (rand : ℕ → ℕ) (t userName : String) :
    ((summarize rand "" userName).tldr = [] ∧
     (summarize rand "" userName).keyPoints = [] ∧
     (summarize rand "" userName).decisions = [] ∧
     (summarize rand "" userName).actionItems = [] ∧
     (summarize rand "" userName).openQuestions = [] ∧
     (summarize rand "" userName).topics = [] ∧
     (summarize rand "" userName).highlights = [] ∧
     (summarize rand "" userName).followUps = [] ∧
     (summarize rand "" userName).sentimentBySegment = []) ∧
    (splitSentences t = [] →
     (summarize rand t userName).tldr = [] ∧
     (summarize rand t userName).keyPoints = [] ∧
     (summarize rand t userName).decisions = [] ∧
     (summarize rand t userName).actionItems = [] ∧
     (summarize rand t userName).openQuestions = [] ∧
     (summarize rand t userName).highlights = []) := by
  constructor
  · exact ⟨rfl, rfl, rfl, rfl, rfl, rfl, rfl, rfl, rfl⟩
  · intro hs
    refine ⟨?_, ?_, ?_, ?_, ?_, ?_⟩
    · rw [summarize_tldr, hs, textRank_nil]
      rfl
    · rw [summarize_keyPoints, hs, textRank_nil]
      rfl
    · rw [summarize_decisions, hs]
      rfl
    · rw [summarize_actionItems, hs]
      rfl
    · rw [summarize_openQuestions, hs]
      rfl
    · rw [summarize_highlights, hs, textRank_nil]
      rfl

/-- C7 witness: the no-sentence part applied to the concrete transcript
"catt. dogg.". -/
theorem summarize_empty_total_witness :
    (summarize (fun _ => 0) "catt. dogg." "U").tldr = [] ∧
    (summarize (fun _ => 0) "catt. dogg." "U").keyPoints = [] ∧
    (summarize (fun _ => 0) "catt. dogg." "U").decisions = [] ∧
    (summarize (fun _ => 0) "catt. dogg." "U").actionItems = [] ∧
    (summarize (fun _ => 0) "catt. dogg." "U").openQuestions = [] ∧
    (summarize (fun _ => 0) "catt. dogg." "U").highlights = [] :=
  (summarize_empty_total (fun _ => 0) "catt. dogg." "U").2 (by decide)

/-! ## Flashcard generation (`src/services/nlp/flashcardGenerator.ts` and
`OfflineProvider.generateFlashcards`)

`makeCard` also sets `id := generateId()` and
`nextReviewAt/createdAt/updatedAt := Date.now()`; these impure identifier
and clock fields are not part of any claim and are omitted from the
embedding. -/

/-- A generated flashcard (SRS defaults as in `makeCard`). -/
structure Flashcard where
  noteId : String
  type : String
  front : String
  back : String
  tags : List String
  difficulty : ℚ
  interval : ℚ
  repetitions : ℚ
  easiness : ℚ

/-- `makeCard` from flashcardGenerator.ts. -/
def makeCard (noteId type front back : String) (tags : List String) : Flashcard :=
  ⟨noteId, type, front, back, tags, 3, 0, 0, 2.5⟩

/-- The fields of a `Summary` consumed by `generateFlashcards` (the other
fields of the model are not read by it). -/
structure Summary where
  keyPoints : List String
  topics : List String
  highlights : List String
  actionItems : List ActionItem

/-- The question formed from a key point (the `/^[A-Z]/` branch of
`generateQACards`). -/
def qaQuestion (point : String) : String :=
  match point.data with
  | [] => point
  | c :: _ =>
    if 'A' ≤ c ∧ c ≤ 'Z' then
      if (splitWs point.data).length > 3 then
        "What is the key point about: \"" ++
          String.intercalate " " (((splitWs point.data).map String.mk).take 5) ++
          "...\"?"
      else "Explain: " ++ point
    else point

/-- `generateQACards` from flashcardGenerator.ts. -/
def generateQACards (noteId : String) (keyPoints topics : List String) :
    List Flashcard :=
  keyPoints.map (fun point =>
    makeCard noteId "qa" (qaQuestion point) point (topics.take 3))

/-- Whether the word-boundary-delimited, case-insensitive keyword occurs in
the sentence (`new RegExp(`\\b${kw}\\b`, "gi").test(sentence)`; keywords
come from `tokenize` and consist of word characters only). -/
def clozeTest (kw : List Char) : List Char → Bool → Bool
  | [], _ => false
  | c :: rest, prevWord =>
    (!prevWord && swCI kw (c :: rest) &&
      (match ((c :: rest).drop kw.length).head? with
       | none => true
       | some d => !isWordC d)) ||
    clozeTest kw rest (isWordC c)

/-- Fuel-indexed worker for `clozeReplace`; one unit of fuel per scanned
position bounds the recursion (each step consumes at least one character,
as the keyword is nonempty). -/
def clozeReplaceGo (kw : List Char) : ℕ → List Char → Bool → List Char
  | 0, s, _ => s
  | fuel + 1, s, prevWord =>
    match s with
    | [] => []
    | c :: rest =>
      if !prevWord && swCI kw s &&
          (match (s.drop kw.length).head? with
           | none => true
           | some d => !isWordC d) then
        "[___]".data ++ clozeReplaceGo kw fuel (s.drop kw.length) true
      else c :: clozeReplaceGo kw fuel rest (isWordC c)

/-- `sentence.replace(regex, "[___]")` for the word-boundary keyword
regex. -/
def clozeReplace (kw s : List Char) : List Char :=
  clozeReplaceGo kw s.length s false

/-- The sentence loop shared by both cloze generators (the `slice(0, 10)`
of flashcardGenerator.ts is applied by its caller). -/
def clozeFronts : List String → List (String × String)
  | [] => []
  | sentence :: rest =>
    match extractKeywords sentence 3 with
    | [] => clozeFronts rest
    | kw :: _ =>
      if clozeTest kw.data sentence.data false then
        (String.mk (clozeReplace kw.data sentence.data), kw) :: clozeFronts rest
      else clozeFronts rest

/-- `generateClozeCards` from flashcardGenerator.ts. -/
def generateClozeCards (noteId : String) (sentences topics : List String) :
    List Flashcard :=
  ((clozeFronts sentences).map (fun p =>
    makeCard noteId "cloze" p.1 p.2 (topics.take 3))).take 10

/-- The topic loop shared by both term-definition generators. -/
def termDefPairs (keyPoints : List String) : List String → List (String × String)
  | [] => []
  | topic :: rest =>
    match keyPoints.find? (fun kp => containsCI topic kp) with
    | some related => (topic, related) :: termDefPairs keyPoints rest
    | none => termDefPairs keyPoints rest

/-- `generateTermDefCards` from flashcardGenerator.ts. -/
def generateTermDefCards (noteId : String) (keyPoints topics : List String) :
    List Flashcard :=
  ((termDefPairs keyPoints topics).flatMap (fun p =>
    [makeCard noteId "term-def" ("Define: " ++ p.1) p.2 [p.1],
     makeCard noteId "def-term" p.2 p.1 [p.1]])).take 10

/-- The action-item cards of `generateFlashcards`. -/
def actionCards (noteId : String) (items : List ActionItem) : List Flashcard :=
  items.map (fun item =>
    makeCard noteId "qa" ("What action item was assigned to " ++ item.owner ++ "?")
      (item.task ++ (match item.due with
        | some d => " (due: " ++ d ++ ")"
        | none => "")) ["action-item"])

/-- The normalised front key used for deduplication:
`front.toLowerCase().trim()`. -/
def normFront (front : String) : String := String.mk (trimJS (front.data.map jsLower))

/-- The dedup filter with its `seen` set: first occurrence of each
normalised key wins. -/
def dedupByKeyGo (key : α → String) : List α → List String → List α
  | [], _ => []
  | c :: rest, seen =>
    if seen.contains (key c) then dedupByKeyGo key rest seen
    else c :: dedupByKeyGo key rest (key c :: seen)

/-- The final `cards.filter` of both generators. -/
def dedupByKey (key : α → String) (l : List α) : List α := dedupByKeyGo key l []

/-- All cards of `generateFlashcards` before deduplication, in generation
order. -/
def allFlashcards (noteId : String) (summary : Summary) : List Flashcard :=
  generateQACards noteId summary.keyPoints summary.topics ++
  generateClozeCards noteId (summary.highlights ++ summary.keyPoints)
    summary.topics ++
  generateTermDefCards noteId summary.keyPoints summary.topics ++
  actionCards noteId summary.actionItems

/-- `generateFlashcards` from flashcardGenerator.ts (the `segments`
parameter is not read by the source function either). -/
def generateFlashcards (noteId : String) (summary : Summary)
    (segments : List String) : List Flashcard :=
  dedupByKey (fun c => normFront c.front) (allFlashcards noteId summary)

/-- `AiFlashcardResult` from AiProvider.ts. -/
structure AiFlashcardResult where
  type : String
  front : String
  back : String
  tags : List String

/-- The QA cards of `OfflineProvider.generateFlashcards` (no leading
capital check here, unlike flashcardGenerator.ts). -/
def offlineQACards (keyPoints topics : List String) : List AiFlashcardResult :=
  keyPoints.map (fun point =>
    ⟨"qa",
     if (splitWs point.data).length > 3 then
       "What is the key point about: \"" ++
         String.intercalate " " (((splitWs point.data).map String.mk).take 5) ++
         "...\"?"
     else "Explain: " ++ point,
     point, topics.take 3⟩)

/-- All cards of `OfflineProvider.generateFlashcards` before
deduplication (its cloze and term-def loops have no `slice(0, 10)`). -/
def offlineAllCards (transcript : String) (summary : Option AiSummaryResult) :
    List AiFlashcardResult :=
  let topics := match summary with
    | some s => s.topics
    | none => extractTopics transcript
  let keyPoints := match summary with
    | some s => s.keyPoints
    | none => []
  let highlights := match summary with
    | some s => s.highlights
    | none => []
  offlineQACards keyPoints topics ++
  (clozeFronts (highlights ++ keyPoints)).map (fun p =>
    ⟨"cloze", p.1, p.2, topics.take 3⟩) ++
  (termDefPairs keyPoints topics).flatMap (fun p =>
    [⟨"term-def", "Define: " ++ p.1, p.2, [p.1]⟩,
     ⟨"def-term", p.2, p.1, [p.1]⟩]) ++
  (match summary with
    | some s => s.actionItems.map (fun item =>
        ⟨"qa", "What action item was assigned to " ++ item.owner ++ "?",
         item.task ++ (match item.due with
           | some d => " (due: " ++ d ++ ")"
           | none => ""), ["action-item"]⟩)
    | none => [])

/-- `OfflineProvider.generateFlashcards`. -/
def offlineGenerateFlashcards (transcript : String)
    (summary : Option AiSummaryResult) : List AiFlashcardResult :=
  dedupByKey (fun c => normFront c.front) (offlineAllCards transcript summary)

/-! ### Deduplication lemmas -/

/-- The dedup output has pairwise distinct keys, none of which is in
`seen`. -/
lemma dedupByKeyGo_spec (key : α → String) :
    ∀ (l : List α) (seen : List String),
      (dedupByKeyGo key l seen).Pairwise (fun a b => key a ≠ key b) ∧
      ∀ c ∈ dedupByKeyGo key l seen, key c ∉ seen := by
  intro l
  induction l with
  | nil => exact fun seen => ⟨List.Pairwise.nil, by simp [dedupByKeyGo]⟩
  | cons c rest ih =>
    intro seen
    unfold dedupByKeyGo
    by_cases hc : seen.contains (key c)
    · rw [if_pos hc]
      exact ih seen
    · rw [if_neg hc]
      have hmem : key c ∉ seen := by
        intro hm
        exact hc (List.elem_iff.mpr hm)
      obtain ⟨hpw, hnot⟩ := ih (key c :: seen)
      refine ⟨List.Pairwise.cons ?_ hpw, ?_⟩
      · intro d hd heq
        exact hnot d hd (by simp [← heq])
      · intro d hd
        rcases List.mem_cons.mp hd with rfl | hd'
        · exact hmem
        · intro hdm
          exact hnot d hd' (by simp [hdm])

/-- First occurrence wins: for any element of the input whose key is not
yet seen, the first input element with that key is in the output. -/
lemma dedupByKeyGo_first (key : α → String) :
    ∀ (l : List α) (seen : List String) (c : α), c ∈ l → key c ∉ seen →
      ∃ c', l.find? (fun d => key d == key c) = some c' ∧
        c' ∈ dedupByKeyGo key l seen := by
  intro l
  induction l with
  | nil => intro seen c hc; cases hc
  | cons h rest ih =>
    intro seen c hc hseen
    by_cases hk : key h = key c
    · have hbeq : (key h == key c) = true := beq_iff_eq.mpr hk
      refine ⟨h, ?_, ?_⟩
      · simp [List.find?, hbeq]
      · unfold dedupByKeyGo
        have hns : ¬ seen.contains (key h) = true := by
          intro hcon
          exact hseen (hk ▸ List.elem_iff.mp hcon)
        rw [if_neg hns]
        simp
    · have hbeq : (key h == key c) = false := beq_eq_false_iff_ne.mpr hk
      have hc' : c ∈ rest := by
        rcases List.mem_cons.mp hc with rfl | hr
        · exact absurd rfl hk
        · exact hr
      have hfind : (h :: rest).find? (fun d => key d == key c) =
          rest.find? (fun d => key d == key c) := by
        simp [List.find?, hbeq]
      unfold dedupByKeyGo
      by_cases hcs : seen.contains (key h)
      · rw [if_pos hcs, hfind]
        exact ih seen c hc' hseen
      · rw [if_neg hcs, hfind]
        obtain ⟨c', hfc, hmem⟩ := ih (key h :: seen) c hc' (by
          intro hm
          rcases List.mem_cons.mp hm with he | hm'
          · exact hk he.symm
          · exact hseen hm')
        exact ⟨c', hfc, by simp [hmem]⟩

/-- C9: both flashcard generators return card lists with pairwise distinct
normalised front texts, and for every generated card the first pre-dedup
card with the same normalised front is the one kept. -/
theorem flashcards_unique_fronts :
    (∀ (noteId : String) (summary : Summary) (segments : List String),
      (generateFlashcards noteId summary segments).Pairwise
        (fun a b => normFront a.front ≠ normFront b.front) ∧
      ∀ c ∈ allFlashcards noteId summary,
        ∃ c', (allFlashcards noteId summary).find?
            (fun d => normFront d.front == normFront c.front) = some c' ∧
          c' ∈ generateFlashcards noteId summary segments) ∧
    (∀ (transcript : String) (summary : Option AiSummaryResult),
      (offlineGenerateFlashcards transcript summary).Pairwise
        (fun a b => normFront a.front ≠ normFront b.front) ∧
      ∀ c ∈ offlineAllCards transcript summary,
        ∃ c', (offlineAllCards transcript summary).find?
            (fun d => normFront d.front == normFront c.front) = some c' ∧
          c' ∈ offlineGenerateFlashcards transcript summary) := by
  constructor
  · intro noteId summary segments
    refine ⟨(dedupByKeyGo_spec (fun c => normFront c.front)
      (allFlashcards noteId summary) []).1, ?_⟩
    intro c hc
    exact dedupByKeyGo_first (fun c => normFront c.front)
      (allFlashcards noteId summary) [] c hc (by simp)
  · intro transcript summary
    refine ⟨(dedupByKeyGo_spec (fun c => normFront c.front)
      (offlineAllCards transcript summary) []).1, ?_⟩
    intro c hc
    exact dedupByKeyGo_first (fun c => normFront c.front)
      (offlineAllCards transcript summary) [] c hc (by simp)

/-- C9 witness: with a summary holding one action item and nothing else,
the single generated card is its own first occurrence and is kept. -/
theorem flashcards_unique_fronts_witness :
    ∃ c', (allFlashcards "n" ⟨[], [], [], [⟨"Bob", "write the report", none⟩]⟩).find?
        (fun d => normFront d.front ==
          normFront (makeCard "n" "qa" "What action item was assigned to Bob?"
            "write the report" ["action-item"]).front) = some c' ∧
      c' ∈ generateFlashcards "n" ⟨[], [], [], [⟨"Bob", "write the report", none⟩]⟩ [] := by
  have hall : allFlashcards "n" ⟨[], [], [], [⟨"Bob", "write the report", none⟩]⟩ =
      [makeCard "n" "qa" "What action item was assigned to Bob?"
        "write the report" ["action-item"]] := rfl
  exact (flashcards_unique_fronts.1 "n"
      ⟨[], [], [], [⟨"Bob", "write the report", none⟩]⟩ []).2
    (makeCard "n" "qa" "What action item was assigned to Bob?"
      "write the report" ["action-item"])
    (by rw [hall]; exact List.mem_singleton.mpr rfl)

end NoteGenius
